import Mathlib

/-!
Verification development for the virtual-patient simulator
(`virtual_patient.py`, `virtual_patient_2(1).py`).

Strings are modelled as `List Char`.  Python's `str.lower` is modelled for
the Latin-1 range the files are decoded with (`encoding='latin1'`): ASCII
upper-case letters and the Latin-1 upper-case block `À`–`Þ` (except `×`)
shift by 32, everything else is fixed.  All texts occurring in the theorems
below are ASCII.
-/

namespace VPModel

/-- Default character used for out-of-range `getD` lookups (never observed
at in-range indices). -/
def dChar : Char := ' '

/-- Python `str.lower` restricted to the Latin-1 range. -/
def lowerChar (c : Char) : Char :=
  let n := c.toNat
  if (65 ≤ n ∧ n ≤ 90) ∨ (192 ≤ n ∧ n ≤ 222 ∧ n ≠ 215) then Char.ofNat (n + 32) else c

/-- `str.lower` on a whole string. -/
def lowerStr (s : List Char) : List Char := s.map lowerChar

/-- Python `\s` / `str.strip` whitespace for the Latin-1 range:
space, TAB, LF, VT, FF, CR, FS, GS, RS, US, NEL (0x85) and NBSP (0xA0). -/
def isWsChar (c : Char) : Bool :=
  let n := c.toNat
  n = 32 ∨ (9 ≤ n ∧ n ≤ 13) ∨ (28 ≤ n ∧ n ≤ 31) ∨ n = 133 ∨ n = 160

/-- Python `str.strip()`. -/
def stripWs (s : List Char) : List Char :=
  ((s.dropWhile isWsChar).reverse.dropWhile isWsChar).reverse

/-- `s.startswith(p)` / prefix test. -/
def startsWithL : List Char → List Char → Bool
  | [], _ => true
  | _ :: _, [] => false
  | p :: ps, c :: cs => decide (p = c) && startsWithL ps cs

/-- Python substring containment `p in s`. -/
def containsL (p : List Char) : List Char → Bool
  | [] => startsWithL p []
  | c :: t => startsWithL p (c :: t) || containsL p t

/-- Python `s.replace(old, '')`, fuel-driven scan (fuel ≥ length of the
string suffices; one unit is spent per emitted character or removed match). -/
def replaceDelF (p : List Char) : Nat → List Char → List Char
  | 0, s => s
  | _ + 1, [] => []
  | fuel + 1, c :: t =>
    if startsWithL p (c :: t) ∧ p ≠ [] then
      replaceDelF p fuel ((c :: t).drop p.length)
    else
      c :: replaceDelF p fuel t

/-- Python `s.replace(old, '')`. -/
def replaceDel (p s : List Char) : List Char := replaceDelF p s.length s

/-! ## difflib.SequenceMatcher(None, a, b)

Faithful model of CPython's `difflib` for the `junk=None` usage in
`check_diagnosis`: the `b2j` index drops "popular" elements when
`len(b) >= 200` (autojunk), `find_longest_match` runs the usual
longest-matching-block dynamic program and then extends the block over
equal elements (the two junk-extension loops of difflib never fire since
the junk set is empty), and `ratio` is `2*M/T` over the total size of the
matching blocks. -/

/-- Indices `j` with `b[j] = c`, ascending (difflib's `b2j` lists). -/
def indicesOf (b : List Char) (c : Char) : List Nat :=
  (List.range b.length).filter (fun j => decide (b.getD j dChar = c))

/-- difflib autojunk: for `len(b) >= 200`, characters occurring more than
`len(b) // 100 + 1` times are dropped from `b2j`. -/
def isPopular (b : List Char) (c : Char) : Bool :=
  decide (200 ≤ b.length) && decide (b.length / 100 + 1 < (indicesOf b c).length)

/-- difflib's `b2j` lookup (empty list for junked chars). -/
def b2jF (b : List Char) (c : Char) : List Nat :=
  if isPopular b c then [] else indicesOf b c

/-- State of the `find_longest_match` dynamic program. -/
structure DPState where
  besti : Nat
  bestj : Nat
  bestsize : Nat
  j2len : Nat → Nat

/-- Candidate `j` positions scanned in row `i`
(`for j in b2j.get(a[i], []): if j < blo: continue; if j >= bhi: break`;
the list is ascending, so the skip/break amount to filters). -/
def rowCands (a b : List Char) (blo bhi i : Nat) : List Nat :=
  ((b2jF b (a.getD i dChar)).filter (fun j => decide (blo ≤ j))).filter
    (fun j => decide (j < bhi))

/-- The best-triple update scan of one DP row `i`: for each candidate `j`
in order, `k = kv j` and the best triple becomes `(i-k+1, j-k+1, k)` when
`k > bestsize`. -/
def bestFold (i : Nat) (kv : Nat → Nat) (cands : List Nat) (bst : Nat × Nat × Nat) :
    Nat × Nat × Nat :=
  cands.foldl
    (fun b j => if b.2.2 < kv j then (i + 1 - kv j, j + 1 - kv j, kv j) else b) bst

/-- One row `i` of the `find_longest_match` dynamic program.
`newj2len[j] = j2len.get(j-1, 0) + 1` for each candidate (`j2len.get(-1,0)`
is 0, hence the `j = 0` case); the best triple is updated on `k > bestsize`
scanning the candidates in ascending order. -/
def flmRow (a b : List Char) (blo bhi : Nat) (st : DPState) (i : Nat) : DPState :=
  let cands := rowCands a b blo bhi i
  let kv : Nat → Nat := fun j => (if j = 0 then 0 else st.j2len (j - 1)) + 1
  let best := bestFold i kv cands (st.besti, st.bestj, st.bestsize)
  { besti := best.1, bestj := best.2.1, bestsize := best.2.2,
    j2len := fun j => if cands.contains j then kv j else 0 }

/-- difflib's first extension loop: grow the block to the front while the
elements match (the junk test is vacuous, the junk set being empty).
Fuel `besti` suffices since `besti` strictly decreases. -/
def extendFront (a b : List Char) (alo blo : Nat) :
    Nat → Nat → Nat → Nat → Nat × Nat × Nat
  | 0, besti, bestj, bestsize => (besti, bestj, bestsize)
  | fuel + 1, besti, bestj, bestsize =>
    if alo < besti ∧ blo < bestj ∧ a.getD (besti - 1) dChar = b.getD (bestj - 1) dChar then
      extendFront a b alo blo fuel (besti - 1) (bestj - 1) (bestsize + 1)
    else (besti, bestj, bestsize)

/-- difflib's second extension loop: grow the block to the back. -/
def extendBack (a b : List Char) (ahi bhi besti bestj : Nat) :
    Nat → Nat → Nat
  | 0, bestsize => bestsize
  | fuel + 1, bestsize =>
    if besti + bestsize < ahi ∧ bestj + bestsize < bhi ∧
        a.getD (besti + bestsize) dChar = b.getD (bestj + bestsize) dChar then
      extendBack a b ahi bhi besti bestj fuel (bestsize + 1)
    else bestsize

/-- `SequenceMatcher.find_longest_match(alo, ahi, blo, bhi)`; the two
junk-extension loops of difflib are identities here (empty junk set). -/
def findLongestMatch (a b : List Char) (alo ahi blo bhi : Nat) : Nat × Nat × Nat :=
  let st := (List.range' alo (ahi - alo)).foldl (flmRow a b blo bhi)
    ⟨alo, blo, 0, fun _ => 0⟩
  let f := extendFront a b alo blo st.besti st.besti st.bestj st.bestsize
  let k := extendBack a b ahi bhi f.1 f.2.1 ahi f.2.2
  (f.1, f.2.1, k)

/-- Total size of the matching blocks (`get_matching_blocks` recursion;
only the sum of the sizes is needed for `ratio`).  Fuel-driven: each
recursive call is on a strictly smaller pair of intervals, so
`len(a)+len(b)+1` units suffice at the top. -/
def matchSumF (a b : List Char) : Nat → Nat → Nat → Nat → Nat → Nat
  | 0, _, _, _, _ => 0
  | fuel + 1, alo, ahi, blo, bhi =>
    let r := findLongestMatch a b alo ahi blo bhi
    if r.2.2 = 0 then 0
    else
      matchSumF a b fuel alo r.1 blo r.2.1 + r.2.2 +
        matchSumF a b fuel (r.1 + r.2.2) ahi (r.2.1 + r.2.2) bhi

/-- `M` = total number of matched elements between `a` and `b`. -/
def matchTotal (a b : List Char) : Nat :=
  matchSumF a b (a.length + b.length + 1) 0 a.length 0 b.length

/-- `ratio() = 2*M/T` as an exact rational (`T = 0` gives `1.0` in
difflib's `_calculate_ratio`). -/
def simRatioQ (a b : List Char) : ℚ :=
  let t := a.length + b.length
  if t = 0 then 1 else (2 * matchTotal a b : ℚ) / t

/-- The comparison `ratio() > 0.8` performed on naturals:
`2*M/T > 4/5 ↔ 10*M > 4*T` for `T > 0`, and `1.0 > 0.8` for `T = 0`.
(`ratioGtQ_iff` below proves the equivalence with the rational form; for
the string sizes at play the binary64 rounding of CPython cannot move a
ratio across the threshold, since `|2M/T - 4/5| ≥ 1/(5T)` when nonzero.) -/
def ratioGt (m t : Nat) : Bool :=
  if t = 0 then true else decide (4 * t < 10 * m)

/-- `similarity > 0.8` for the two strings. -/
def similarGt (a b : List Char) : Bool :=
  ratioGt (matchTotal a b) (a.length + b.length)

theorem ratioGtQ_iff (a b : List Char) :
    simRatioQ a b > 4 / 5 ↔ similarGt a b = true := by
  unfold simRatioQ similarGt ratioGt
  rcases Nat.eq_zero_or_pos (a.length + b.length) with h | h
  · simp only [h, if_pos rfl]
    norm_num
  · have hne : a.length + b.length ≠ 0 := Nat.pos_iff_ne_zero.mp h
    simp only [hne, if_neg hne, ite_false, decide_eq_true_eq]
    rw [gt_iff_lt, div_lt_div_iff₀ (by norm_num) (by positivity)]
    constructor <;> intro hlt
    · have h2 : (4 * (a.length + b.length) : ℚ) < 10 * matchTotal a b := by
        push_cast at hlt ⊢; nlinarith
      exact_mod_cast h2
    · have h2 : (4 * (a.length + b.length) : ℚ) < 10 * matchTotal a b := by
        exact_mod_cast hlt
      push_cast at h2 ⊢
      nlinarith

/-! ## Data model and VirtualPatient session operations

`CaseRecord` is the 5-field case dictionary produced by the loaders;
`SessionState` is the mutable state of a `VirtualPatient` instance.  The
external OpenAI call is modelled by an oracle
`llm : List ChatMsg → Except (List Char) (List Char)`; a `.error` result is
a raised exception from the service.  The unhardened `interact`
(`virtual_patient.py`) propagates it, the hardened one
(`virtual_patient_2(1).py`) converts it to an error string. -/

structure CaseRecord where
  specialty : List Char
  caseNumber : List Char
  presentingComplaint : List Char
  caseDetails : List Char
  diagnosis : List Char
deriving DecidableEq

structure ChatMsg where
  role : List Char
  content : List Char
deriving DecidableEq

structure SessionState where
  currentCase : Option CaseRecord
  conversationHistory : List ChatMsg
  diagnosisMade : Bool
  diagnosisCorrect : Bool
deriving DecidableEq

/-- The four diagnosis-announcing phrases checked by `interact`. -/
def diagnosisKeywords : List (List Char) :=
  [("my diagnosis is").data, ("i think this is").data,
   ("this could be").data, ("you have").data]

/-- The five phrases stripped out of the message in `check_diagnosis`. -/
def stripPhraseList : List (List Char) :=
  [("my diagnosis is").data, ("i think this is").data,
   ("this could be").data, ("you have").data, ("this is").data]

/-- The phrase-removal loop of `check_diagnosis`:
`diagnosis_text = diagnosis_text.replace(phrase, '').strip()` per phrase. -/
def stripPhrases (s : List Char) : List Char :=
  stripPhraseList.foldl (fun t p => stripWs (replaceDel p t)) s

/-- `VirtualPatient.check_diagnosis` (identical in both variants), given the
active case `c`. -/
def checkDiagnosis (c : CaseRecord) (msg : List Char) (st : SessionState) :
    List Char × SessionState :=
  let cand := stripPhrases (lowerStr msg)
  let actual := lowerStr c.diagnosis
  let correct := similarGt cand actual
  let st' := { st with diagnosisMade := true, diagnosisCorrect := correct }
  if correct then
    (("Correct! The diagnosis is ").data ++ c.diagnosis ++
      (". Would you like to discuss the case or move to the next one?").data, st')
  else
    (("That\x27s not quite right. The actual diagnosis is ").data ++ c.diagnosis ++
      (". Let\x27s review the key points of the case. What made this diagnosis challenging?").data,
     st')

/-- `VirtualPatient.set_case`. -/
def setCase (c : CaseRecord) (_st : SessionState) : SessionState :=
  { currentCase := some c, conversationHistory := [],
    diagnosisMade := false, diagnosisCorrect := false }

/-- The system instruction built in `interact`: the filled prompt template
followed by the hidden case-details block. -/
def systemPrompt (c : CaseRecord) : List Char :=
  ("You are simulating a patient case for medical training. Respond as the patient would, with appropriate emotions and lay terminology. Important rules:\n\n1. Never reveal the diagnosis or medical details that the patient wouldn\x27t know\n2. Only provide information when specifically asked\n3. Use natural, patient-like language (avoid medical terminology unless the patient would know it)\n4. Maintain consistency with previous answers\n5. Show appropriate emotions and concerns\n6. If asked about a symptom or history not mentioned in the case, respond with \"I don\x27t think so\" or \"No\"\n\nCurrent presenting complaint: ").data
  ++ c.presentingComplaint
  ++ ("\n\nRemember: You are the patient. Respond naturally to the doctor\x27s questions. Never reveal the diagnosis or medical details that a real patient wouldn\x27t know.").data
  ++ ("\n\nCase Details (for accurate responses but never reveal):\n").data
  ++ c.caseDetails

/-- The fixed reply of `interact` when no case is loaded. -/
def noCaseMsg : List Char := ("No case loaded. Please load a case first.").data

/-- True when the lower-cased message contains one of the four
diagnosis-announcing phrases (routing test of `interact`). -/
def isDiagnosisAttempt (msg : List Char) : Bool :=
  diagnosisKeywords.any (fun k => containsL k (lowerStr msg))

/-- `VirtualPatient.interact`, unhardened variant (`virtual_patient.py`):
an exception from the model call propagates (`.error`), with the doctor
message already appended to the history. -/
def interactV1 (llm : List ChatMsg → Except (List Char) (List Char))
    (msg : List Char) (st : SessionState) :
    Except (List Char) (List Char) × SessionState :=
  match st.currentCase with
  | none => (.ok noCaseMsg, st)
  | some c =>
    if isDiagnosisAttempt msg then
      let r := checkDiagnosis c msg st
      (.ok r.1, r.2)
    else
      let hist := st.conversationHistory ++ [⟨("user").data, msg⟩]
      let st1 := { st with conversationHistory := hist }
      match llm (⟨("system").data, systemPrompt c⟩ :: hist) with
      | .error e => (.error e, st1)
      | .ok reply =>
        (.ok reply,
         { st1 with conversationHistory := hist ++ [⟨("assistant").data, reply⟩] })

/-- `VirtualPatient.interact`, hardened variant (`virtual_patient_2(1).py`):
a model-call failure is converted to an error string, the doctor message
staying in the history. -/
def interactV2 (llm : List ChatMsg → Except (List Char) (List Char))
    (msg : List Char) (st : SessionState) :
    List Char × SessionState :=
  match st.currentCase with
  | none => (noCaseMsg, st)
  | some c =>
    if isDiagnosisAttempt msg then
      checkDiagnosis c msg st
    else
      let hist := st.conversationHistory ++ [⟨("user").data, msg⟩]
      let st1 := { st with conversationHistory := hist }
      match llm (⟨("system").data, systemPrompt c⟩ :: hist) with
      | .error e => (("Error generating response: ").data ++ e, st1)
      | .ok reply =>
        (reply,
         { st1 with conversationHistory := hist ++ [⟨("assistant").data, reply⟩] })

/-- Result of `VirtualPatient.get_score`. -/
structure ScoreResult where
  score : Nat
  feedback : List Char
deriving DecidableEq

/-- `VirtualPatient.get_score` (read-only). -/
def getScore (st : SessionState) : ScoreResult :=
  if !st.diagnosisMade then
    ⟨0, ("No diagnosis attempted yet.").data⟩
  else if st.diagnosisCorrect then
    ⟨1, ("Correct diagnosis!").data⟩
  else
    ⟨0, ("Incorrect diagnosis. Review the case details.").data⟩

/-! ## A small regex engine

Enough of Python `re` for the patterns used by the two loaders: character
classes, concatenation, alternation, option, and greedy star/plus over a
character class (every star/plus in the source patterns is over a class,
so each iteration consumes exactly one character).  `reMatch` returns all
ways to match a prefix, in backtracking preference order (greedy
quantifiers longest-first, alternatives left-first), exactly Python's
preference order for these constructs; `re.match` is the head of the list,
`re.search` the head at the leftmost position with a nonempty list. -/

inductive RE where
  | eps : RE
  | cls (p : Char → Bool) : RE
  | seq (r1 r2 : RE) : RE
  | alt (r1 r2 : RE) : RE
  | starCls (p : Char → Bool) : RE
  | plusCls (p : Char → Bool) : RE
  | opt (r : RE) : RE
  | grp (n : Nat) (r : RE) : RE

/-- All prefix matches of `re` against `s`, in preference order; each
result is (captured groups, remaining suffix). -/
def reMatch : RE → List Char → List (List (Nat × List Char) × List Char)
  | .eps, s => [([], s)]
  | .cls _, [] => []
  | .cls p, c :: t => if p c then [([], t)] else []
  | .seq r1 r2, s =>
    (reMatch r1 s).flatMap fun g1 =>
      (reMatch r2 g1.2).map fun g2 => (g1.1 ++ g2.1, g2.2)
  | .alt r1 r2, s => reMatch r1 s ++ reMatch r2 s
  | .starCls p, s =>
    let m := (s.takeWhile p).length
    (List.range (m + 1)).map fun d => ([], s.drop (m - d))
  | .plusCls p, s =>
    let m := (s.takeWhile p).length
    (List.range m).map fun d => ([], s.drop (m - d))
  | .opt r, s => reMatch r s ++ [([], s)]
  | .grp n r, s =>
    (reMatch r s).map fun g => ((n, s.take (s.length - g.2.length)) :: g.1, g.2)

/-- `re.match(re, s)`: best prefix match, if any. -/
def reMatchHead (re : RE) (s : List Char) :
    Option (List (Nat × List Char) × List Char) :=
  (reMatch re s).head?

/-- `re.search(re, s)`: leftmost match; returns the prefix of `s` before
the match, the captured groups, and the suffix after the match. -/
def reSearch (re : RE) : List Char → Option (List Char × List (Nat × List Char) × List Char)
  | [] => (reMatchHead re []).map fun g => ([], g.1, g.2)
  | c :: t =>
    match reMatchHead re (c :: t) with
    | some g => some ([], g.1, g.2)
    | none => (reSearch re t).map fun r => (c :: r.1, r.2.1, r.2.2)

/-- `match.group(n)`: contents of capture group `n` (groups are unique per
match in all source patterns). -/
def grpGet (g : List (Nat × List Char)) (n : Nat) : List Char :=
  match g.find? (fun x => decide (x.1 = n)) with
  | some x => x.2
  | none => []

/-- `re.sub(re, '', s)`: delete every (leftmost, preferred) match, scanning
on after each deletion.  Fuel-driven; every source pattern consumes at
least one character per match, so `s.length` units suffice. -/
def reSubDelF (re : RE) : Nat → List Char → List Char
  | 0, s => s
  | fuel + 1, s =>
    match reSearch re s with
    | none => s
    | some r => r.1 ++ reSubDelF re fuel r.2.2

/-- `re.sub(re, '', s)`. -/
def reSubDel (re : RE) (s : List Char) : List Char := reSubDelF re (s.length + 1) s

/-! ### The concrete patterns -/

/-- Case-sensitive literal. -/
def strCS (l : List Char) : RE := l.foldr (fun c r => .seq (.cls fun x => decide (x = c)) r) .eps

/-- Case-insensitive literal (`re.IGNORECASE`); the literal is given
lower-case. -/
def strCI (l : List Char) : RE :=
  l.foldr (fun c r => .seq (.cls fun x => decide (lowerChar x = c)) r) .eps

/-- Python `\s`. -/
def wsP : Char → Bool := isWsChar

/-- Python `\d` (Latin-1 text: exactly the ASCII digits). -/
def digitP (c : Char) : Bool := decide ('0' ≤ c) && decide (c ≤ '9')

/-- `[^\n]` and `.` (no DOTALL). -/
def nonNlP (c : Char) : Bool := decide (c ≠ '\n')

/-- `[A-Z]`. -/
def upperP (c : Char) : Bool := decide ('A' ≤ c) && decide (c ≤ 'Z')

/-- `Case\s+\d+:` — the (case-sensitive) split pattern of loader A. -/
def caseHeadRE : RE :=
  .seq (strCS ("Case").data) (.seq (.plusCls wsP) (.seq (.plusCls digitP)
    (.cls fun x => decide (x = ':'))))

/-- `Case (\d+):\s*(.+)` — the title pattern of `parse_case` (A). -/
def titleRE : RE :=
  .seq (strCS ("Case ").data) (.seq (.grp 1 (.plusCls digitP))
    (.seq (.cls fun x => decide (x = ':'))
      (.seq (.starCls wsP) (.grp 2 (.plusCls nonNlP)))))

/-- `Diagnosis:?\s*([^\n]+)`, IGNORECASE — diagnosis pattern 1 (A). -/
def diagA1RE : RE :=
  .seq (strCI ("diagnosis").data) (.seq (.opt (.cls fun x => decide (x = ':')))
    (.seq (.starCls wsP) (.grp 1 (.plusCls nonNlP))))

/-- `The diagnosis is:?\s*([^\n]+)`, IGNORECASE — diagnosis pattern 2 (A). -/
def diagA2RE : RE :=
  .seq (strCI ("the diagnosis is").data) (.seq (.opt (.cls fun x => decide (x = ':')))
    (.seq (.starCls wsP) (.grp 1 (.plusCls nonNlP))))

/-- `This (patient|case) demonstrates:?\s*([^\n]+)`, IGNORECASE —
diagnosis pattern 3 (A); group 1 is the alternation. -/
def diagA3RE : RE :=
  .seq (strCI ("this ").data)
    (.seq (.grp 1 (.alt (strCI ("patient").data) (strCI ("case").data)))
      (.seq (strCI (" demonstrates").data)
        (.seq (.opt (.cls fun x => decide (x = ':')))
          (.seq (.starCls wsP) (.grp 2 (.plusCls nonNlP))))))

/-- `^([A-Z]+)` — specialty pattern of loader B (anchored search). -/
def specBRE : RE := .grp 1 (.plusCls upperP)

/-- `CASE\s*(\d+):\s*(.+)`, IGNORECASE — case pattern of loader B. -/
def caseBRE : RE :=
  .seq (strCI ("case").data) (.seq (.starCls wsP) (.seq (.grp 1 (.plusCls digitP))
    (.seq (.cls fun x => decide (x = ':'))
      (.seq (.starCls wsP) (.grp 2 (.plusCls nonNlP))))))

/-- `Diagnosis:\s*(.+)`, IGNORECASE — diagnosis pattern 1 (B). -/
def diagB1RE : RE :=
  .seq (strCI ("diagnosis:").data) (.seq (.starCls wsP) (.grp 1 (.plusCls nonNlP)))

/-- `The diagnosis is:\s*(.+)`, IGNORECASE — diagnosis pattern 2 (B). -/
def diagB2RE : RE :=
  .seq (strCI ("the diagnosis is:").data) (.seq (.starCls wsP) (.grp 1 (.plusCls nonNlP)))

/-- `diagnosis\s*[is]?\s*(.+)`, IGNORECASE — diagnosis pattern 3 (B);
`[is]?` is an optional single character of the class `[is]`. -/
def diagB3RE : RE :=
  .seq (strCI ("diagnosis").data) (.seq (.starCls wsP)
    (.seq (.opt (.cls fun x => decide (lowerChar x = 'i') || decide (lowerChar x = 's')))
      (.seq (.starCls wsP) (.grp 1 (.plusCls nonNlP)))))

/-! ## CaseLoader, format A (`virtual_patient.py`) -/

/-- `content.split('\n')` (or on any separator): Python keeps empty
pieces. -/
def splitOnCharL (sep : Char) : List Char → List (List Char)
  | [] => [[]]
  | c :: t =>
    match splitOnCharL sep t with
    | [] => [[]]
    | h :: r => if c = sep then [] :: h :: r else (c :: h) :: r

/-- `re.split(r'(?=Case\s+\d+:)', content)`: the zero-width lookahead cuts
the string before every position where `Case\s+\d+:` matches (a match at
position 0 yields an empty first piece, as in Python 3.7+). -/
def splitCaseHeadsAux (acc : List Char) : List Char → List (List Char)
  | [] => [acc.reverse]
  | c :: t =>
    if (reMatch caseHeadRE (c :: t)).isEmpty then splitCaseHeadsAux (c :: acc) t
    else acc.reverse :: splitCaseHeadsAux [c] t

/-- `re.split(r'(?=Case\s+\d+:)', content)`. -/
def splitCaseHeads (s : List Char) : List (List Char) := splitCaseHeadsAux [] s

/-- ASCII model of Python's cased characters (all texts in the theorems
below are ASCII). -/
def isCasedA (c : Char) : Bool :=
  (decide ('A' ≤ c) && decide (c ≤ 'Z')) || (decide ('a' ≤ c) && decide (c ≤ 'z'))

/-- `str.isupper()`: at least one cased character and no lower-case one. -/
def pyIsUpper (s : List Char) : Bool :=
  s.any isCasedA && s.all fun c => !(decide ('a' ≤ c) && decide (c ≤ 'z'))

/-- `CaseLoader.parse_case` of `virtual_patient.py`.  (`lines[1]` is only
read when the first line is a `Specialty:` header, which the loader always
prepends together with the case body, so the `getD` default is never
used.) -/
def parseCaseA (caseText : List Char) : CaseRecord :=
  let lines := splitOnCharL '\n' caseText
  let hasSpec := startsWithL ("Specialty:").data (lines.getD 0 [])
  let specialty :=
    if hasSpec then stripWs (replaceDel ("Specialty:").data (lines.getD 0 [])) else []
  let titleLine := if hasSpec then lines.getD 1 [] else lines.getD 0 []
  let title :=
    match reMatchHead titleRE titleLine with
    | some g => (grpGet g.1 1, grpGet g.1 2)
    | none => ([], [])
  let text := List.intercalate [('\n')] lines
  let found :=
    match reSearch diagA1RE text with
    | some r => (stripWs (grpGet r.2.1 1), reSubDel diagA1RE text)
    | none =>
      match reSearch diagA2RE text with
      | some r => (stripWs (grpGet r.2.1 1), reSubDel diagA2RE text)
      | none =>
        match reSearch diagA3RE text with
        | some r => (stripWs (grpGet r.2.1 1), reSubDel diagA3RE text)
        | none => ([], text)
  { specialty := specialty, caseNumber := title.1, presentingComplaint := title.2,
    caseDetails := stripWs found.2, diagnosis := found.1 }

/-- `CaseLoader.load_cases_from_file` of `virtual_patient.py`, content
part: split at the case headings, track the current specialty over short
all-uppercase segments, parse segments starting with `Case`, and keep the
records with non-empty `case_details`. -/
def processContentA (content : List Char) : List CaseRecord :=
  ((splitCaseHeads content).foldl
    (fun (acc : List CaseRecord × List Char) piece =>
      let c := stripWs piece
      if c = [] then acc
      else if pyIsUpper c && decide (c.length < 50) then (acc.1, c)
      else if startsWithL ("Case").data c then
        let cd := parseCaseA (("Specialty: ").data ++ acc.2 ++ ('\n') :: c)
        if cd.caseDetails ≠ [] then (acc.1 ++ [cd], acc.2) else acc
      else acc)
    ([], ("Unknown").data)).1

/-- `CaseLoader.load_cases_from_file` (A).  The file read is modelled by an
`Option`: `none` means the file could not be opened, in which case the
`except` clause re-raises a `ValueError`; on readable content the body
never raises and the record list (possibly empty) is returned. -/
def loadFileA : Option (List Char) → Except (List Char) (List CaseRecord)
  | none => .error ("Error loading cases: could not open file").data
  | some content => .ok (processContentA content)

/-! ## CaseLoader, format B (`virtual_patient_2(1).py`) -/

/-- `CaseLoader.parse_case` of `virtual_patient_2(1).py`: the whole
stripped section is kept as `case_details` (the diagnosis is not stripped
out in this variant). -/
def parseCaseB (sectionText : List Char) : CaseRecord :=
  let t := stripWs sectionText
  let specialty :=
    match reMatchHead specBRE t with
    | some g => grpGet g.1 1
    | none => []
  let title :=
    match reSearch caseBRE t with
    | some r => (grpGet r.2.1 1, grpGet r.2.1 2)
    | none => ([], [])
  let diag :=
    match reSearch diagB1RE t with
    | some r => stripWs (grpGet r.2.1 1)
    | none =>
      match reSearch diagB2RE t with
      | some r => stripWs (grpGet r.2.1 1)
      | none =>
        match reSearch diagB3RE t with
        | some r => stripWs (grpGet r.2.1 1)
        | none => []
  { specialty := specialty, caseNumber := title.1, presentingComplaint := title.2,
    caseDetails := t, diagnosis := diag }

/-- Loader B, content part: split on `@`, parse every non-blank section
(the parsed dictionary is always truthy, so every non-blank section yields
a record). -/
def processContentB (content : List Char) : List CaseRecord :=
  (splitOnCharL '@' content).foldl
    (fun acc sec => if stripWs sec = [] then acc else acc ++ [parseCaseB sec]) []

/-- `CaseLoader.load_cases_from_file` (B): a `ValueError` is raised when
the file cannot be opened or when no section yields a record. -/
def loadFileB : Option (List Char) → Except (List Char) (List CaseRecord)
  | none => .error ("File not found").data
  | some content =>
    let cs := processContentB content
    if cs = [] then
      .error ("Error loading cases: No cases could be parsed from the file").data
    else .ok cs

/-! ## Shared helper facts and concrete fixtures -/

/-- An oracle that always answers. -/
def llmOkStub : List ChatMsg → Except (List Char) (List Char) :=
  fun _ => .ok (("I see.").data)

/-- An oracle whose call always raises. -/
def llmErrStub : List ChatMsg → Except (List Char) (List Char) :=
  fun _ => .error (("boom").data)

/-- A small concrete case record. -/
def demoCase : CaseRecord :=
  ⟨("GEN").data, ("1").data, ("sore throat").data, ("Hx: 3 days").data,
   ("strep throat").data⟩

/-- A case record whose diagnosis is the empty string (no pattern matched
at load time). -/
def emptyDiagCase : CaseRecord :=
  ⟨("GEN").data, ("1").data, ("cough").data, ("Hx details").data, []⟩

/-- Session state immediately after `set_case c`. -/
def freshState (c : CaseRecord) : SessionState := ⟨some c, [], false, false⟩

/-- The `diagnosis_correct` flag written by `check_diagnosis` is the
similarity test between the stripped candidate and the lower-cased
ground-truth diagnosis. -/
theorem checkDiagnosis_correct_eq (c : CaseRecord) (msg : List Char) (st : SessionState) :
    (checkDiagnosis c msg st).2.diagnosisCorrect =
      similarGt (stripPhrases (lowerStr msg)) (lowerStr c.diagnosis) := by
  simp only [checkDiagnosis]
  split <;> rfl

/-- `check_diagnosis` never touches the conversation history. -/
theorem checkDiagnosis_history_eq (c : CaseRecord) (msg : List Char) (st : SessionState) :
    (checkDiagnosis c msg st).2.conversationHistory = st.conversationHistory := by
  simp only [checkDiagnosis]
  split <;> rfl

/-- `check_diagnosis` always sets `diagnosis_made`. -/
theorem checkDiagnosis_made_eq (c : CaseRecord) (msg : List Char) (st : SessionState) :
    (checkDiagnosis c msg st).2.diagnosisMade = true := by
  simp only [checkDiagnosis]
  split <;> rfl

/-! ## Claim theorems -/

/-- C7: for every prior session state (any current case, any history, any
diagnosis flags), `set_case(case)` replaces `current_case` with the given
record, empties `conversation_history`, and resets `diagnosis_made` and
`diagnosis_correct` to `false`. -/
theorem set_case_resets (c : CaseRecord) (st : SessionState) :
    (setCase c st).currentCase = some c ∧
    (setCase c st).conversationHistory = [] ∧
    (setCase c st).diagnosisMade = false ∧
    (setCase c st).diagnosisCorrect = false :=
  ⟨rfl, rfl, rfl, rfl⟩

/-- C8: with no active case, `interact` returns exactly the fixed
"No case loaded. Please load a case first." string for every message and
leaves the session state unchanged, in both variants. -/
theorem interact_no_case (llm : List ChatMsg → Except (List Char) (List Char))
    (msg : List Char) (st : SessionState) (h : st.currentCase = none) :
    interactV1 llm msg st = (.ok (("No case loaded. Please load a case first.").data), st) ∧
    interactV2 llm msg st = ((("No case loaded. Please load a case first.").data), st) := by
  unfold interactV1 interactV2
  rw [h]
  exact ⟨rfl, rfl⟩

/-- Witness for C8 at a concrete message and the initial state. -/
theorem interact_no_case_witness :
    interactV1 llmOkStub (("Does the pain get worse at night?").data) ⟨none, [], false, false⟩ =
      (.ok (("No case loaded. Please load a case first.").data), ⟨none, [], false, false⟩) ∧
    interactV2 llmOkStub (("Does the pain get worse at night?").data) ⟨none, [], false, false⟩ =
      ((("No case loaded. Please load a case first.").data), ⟨none, [], false, false⟩) :=
  interact_no_case llmOkStub (("Does the pain get worse at night?").data)
    ⟨none, [], false, false⟩ rfl

/-- C6: whenever the doctor message contains (case-insensitively) one of
the four diagnosis-announcing phrases, `interact` routes to
`check_diagnosis` in both variants: the result is exactly that of
`check_diagnosis`, the message is not appended to the history, and the
external model is not invoked (the outcome is oracle-independent). -/
theorem interact_routes_diagnosis
    (llm llm' : List ChatMsg → Except (List Char) (List Char))
    (msg : List Char) (st : SessionState) (c : CaseRecord)
    (hc : st.currentCase = some c)
    (hk : ∃ k ∈ diagnosisKeywords, containsL k (lowerStr msg) = true) :
    interactV1 llm msg st = (.ok (checkDiagnosis c msg st).1, (checkDiagnosis c msg st).2) ∧
    interactV2 llm msg st = checkDiagnosis c msg st ∧
    (interactV1 llm msg st).2.conversationHistory = st.conversationHistory ∧
    interactV1 llm msg st = interactV1 llm' msg st ∧
    interactV2 llm msg st = interactV2 llm' msg st := by
  have hb : isDiagnosisAttempt msg = true := by
    obtain ⟨k, hk1, hk2⟩ := hk
    unfold isDiagnosisAttempt
    rw [List.any_eq_true]
    exact ⟨k, hk1, hk2⟩
  unfold interactV1 interactV2
  rw [hc]
  simp only [hb, if_true]
  refine ⟨?_, ?_, ?_, ?_, ?_⟩ <;>
    first
      | rfl
      | trivial
      | exact checkDiagnosis_history_eq c msg st

/-- Witness for C6: "You HAVE strep throat" contains "you have"
case-insensitively and is routed to `check_diagnosis`. -/
theorem interact_routes_diagnosis_witness :
    interactV1 llmOkStub (("You HAVE strep throat").data) (freshState demoCase) =
      (.ok (checkDiagnosis demoCase (("You HAVE strep throat").data) (freshState demoCase)).1,
       (checkDiagnosis demoCase (("You HAVE strep throat").data) (freshState demoCase)).2) ∧
    interactV2 llmOkStub (("You HAVE strep throat").data) (freshState demoCase) =
      checkDiagnosis demoCase (("You HAVE strep throat").data) (freshState demoCase) ∧
    (interactV1 llmOkStub (("You HAVE strep throat").data) (freshState demoCase)).2.conversationHistory =
      (freshState demoCase).conversationHistory ∧
    interactV1 llmOkStub (("You HAVE strep throat").data) (freshState demoCase) =
      interactV1 llmErrStub (("You HAVE strep throat").data) (freshState demoCase) ∧
    interactV2 llmOkStub (("You HAVE strep throat").data) (freshState demoCase) =
      interactV2 llmErrStub (("You HAVE strep throat").data) (freshState demoCase) :=
  interact_routes_diagnosis llmOkStub llmErrStub (("You HAVE strep throat").data)
    (freshState demoCase) demoCase rfl (by decide)

/-- C9: `diagnosis_made` is monotonic within a case: false after
`set_case`, set to true by `check_diagnosis`, and never reset by a
subsequent `interact` (in either variant; `get_score` reads the state
without modifying it). -/
theorem diagnosis_made_monotonic :
    (∀ c st, (setCase c st).diagnosisMade = false) ∧
    (∀ c msg st, (checkDiagnosis c msg st).2.diagnosisMade = true) ∧
    (∀ llm msg st, st.diagnosisMade = true →
      (interactV1 llm msg st).2.diagnosisMade = true) ∧
    (∀ llm msg st, st.diagnosisMade = true →
      (interactV2 llm msg st).2.diagnosisMade = true) := by
  refine ⟨fun c st => rfl, fun c msg st => checkDiagnosis_made_eq c msg st, ?_, ?_⟩
  · intro llm msg st h
    unfold interactV1
    cases hcc : st.currentCase with
    | none => exact h
    | some c =>
      by_cases hb : isDiagnosisAttempt msg = true
      · simp only [hb, if_true]
        exact checkDiagnosis_made_eq c msg st
      · simp only [hb, if_false]
        cases llm (⟨("system").data, systemPrompt c⟩ ::
            (st.conversationHistory ++ [⟨("user").data, msg⟩])) <;> exact h
  · intro llm msg st h
    unfold interactV2
    cases hcc : st.currentCase with
    | none => exact h
    | some c =>
      by_cases hb : isDiagnosisAttempt msg = true
      · simp only [hb, if_true]
        exact checkDiagnosis_made_eq c msg st
      · simp only [hb, if_false]
        cases llm (⟨("system").data, systemPrompt c⟩ ::
            (st.conversationHistory ++ [⟨("user").data, msg⟩])) <;> exact h

/-- Witness for C9 at a concrete state with `diagnosis_made = true`. -/
theorem diagnosis_made_monotonic_witness :
    (interactV1 llmOkStub (("any more symptoms?").data)
      ⟨some demoCase, [], true, false⟩).2.diagnosisMade = true :=
  diagnosis_made_monotonic.2.2.1 llmOkStub (("any more symptoms?").data)
    ⟨some demoCase, [], true, false⟩ rfl

/-- C10: in the hardened variant, a model-call failure during a normal
turn yields an error string instead of propagating, but the doctor's
message stays appended to `conversation_history`: the error path is not
atomic. -/
theorem interact_v2_error_keeps_history
    (llm : List ChatMsg → Except (List Char) (List Char))
    (msg e : List Char) (st : SessionState) (c : CaseRecord)
    (hc : st.currentCase = some c)
    (hk : isDiagnosisAttempt msg = false)
    (he : llm (⟨("system").data, systemPrompt c⟩ ::
      (st.conversationHistory ++ [⟨("user").data, msg⟩])) = .error e) :
    interactV2 llm msg st =
      ((("Error generating response: ").data ++ e,
        { st with conversationHistory :=
            st.conversationHistory ++ [⟨("user").data, msg⟩] })) := by
  unfold interactV2
  rw [hc]
  simp only [hk, if_false, he]
  rfl

/-- Witness for C10 with an always-failing oracle. -/
theorem interact_v2_error_keeps_history_witness :
    interactV2 llmErrStub (("Where does it hurt?").data) (freshState demoCase) =
      ((("Error generating response: ").data ++ ("boom").data,
        { freshState demoCase with conversationHistory :=
            (freshState demoCase).conversationHistory ++
              [⟨("user").data, ("Where does it hurt?").data⟩] })) :=
  interact_v2_error_keeps_history llmErrStub (("Where does it hurt?").data)
    (("boom").data) (freshState demoCase) demoCase rfl (by decide) rfl

/-- Counterexample for C2: on content yielding zero parseable cases,
loader A returns the empty list normally instead of failing. -/
theorem loadA_zero_cases_returns_ok_empty :
    loadFileA (some (("no case content here").data)) = .ok [] := by
  have h : processContentA (("no case content here").data) = [] := by decide
  have h2 : loadFileA (some (("no case content here").data)) =
      .ok (processContentA (("no case content here").data)) := rfl
  rw [h2, h]

/-- C2 (amended): both variants fail with a data error when the file
cannot be opened, and the format-B variant fails whenever the content
yields zero parseable records; the format-A variant instead returns
whatever record list the content yields — possibly empty — without
error. -/
theorem load_failure_behaviour :
    loadFileA none = .error (("Error loading cases: could not open file").data) ∧
    loadFileB none = .error (("File not found").data) ∧
    (∀ content, processContentB content = [] →
      loadFileB (some content) =
        .error (("Error loading cases: No cases could be parsed from the file").data)) ∧
    (∀ content, loadFileA (some content) = .ok (processContentA content)) := by
  refine ⟨rfl, rfl, fun content h => ?_, fun content => rfl⟩
  have h2 : loadFileB (some content) =
      if processContentB content = [] then
        .error (("Error loading cases: No cases could be parsed from the file").data)
      else .ok (processContentB content) := rfl
  rw [h2, if_pos h]

/-- Witness for C2 (amended) on all-blank content. -/
theorem load_failure_behaviour_witness :
    loadFileB (some (("@@  @").data)) =
      .error (("Error loading cases: No cases could be parsed from the file").data) :=
  load_failure_behaviour.2.2.1 (("@@  @").data) (by decide)

/-- The format-A file of claim C1 whose diagnosis line matches only the
third pattern `This (patient|case) demonstrates:?\s*([^\n]+)`. -/
def c1File : List Char :=
  ("Case 1: chest pain\nSharp central chest pain.\nThis patient demonstrates: acute pericarditis").data

set_option maxRecDepth 8000 in
/-- C1 (failing input): on a well-formed one-case file whose diagnosis
line is "This patient demonstrates: acute pericarditis", the loader
returns one record whose `diagnosis` is the word "patient" — the text of
capture group 1, the `(patient|case)` alternation — rather than the text
"acute pericarditis" following the matched pattern as the claim states. -/
theorem loadA_pattern3_captures_alternation :
    loadFileA (some c1File) =
      .ok [⟨("Unknown").data, ("1").data, ("chest pain").data,
            ("Specialty: Unknown\nCase 1: chest pain\nSharp central chest pain.").data,
            ("patient").data⟩] ∧
    ("patient").data ≠ ("acute pericarditis").data := by
  constructor
  · have h : processContentA c1File =
        [⟨("Unknown").data, ("1").data, ("chest pain").data,
          ("Specialty: Unknown\nCase 1: chest pain\nSharp central chest pain.").data,
          ("patient").data⟩] := by decide
    have h2 : loadFileA (some c1File) = .ok (processContentA c1File) := rfl
    rw [h2, h]
  · decide

/-- Counterexample for C3: with an empty ground-truth diagnosis, the
message "you have" strips down to the empty candidate, difflib's ratio of
two empty strings is 1.0, and `diagnosis_correct` becomes true. -/
theorem check_empty_diag_can_be_correct :
    (checkDiagnosis emptyDiagCase (("you have").data)
      (freshState emptyDiagCase)).2.diagnosisCorrect = true := by
  decide

/-- Counterexample for C4: for the diagnosis "this is it", the announced
guess "My diagnosis is this is it" also loses its embedded "this is"
during phrase-stripping; the candidate becomes "it", the similarity is
1/3, and `diagnosis_correct` stays false. -/
theorem check_self_guess_can_fail :
    (checkDiagnosis ⟨("GEN").data, ("1").data, ("malaise").data, ("Hx").data, ("this is it").data⟩
      (("My diagnosis is ").data ++ ("this is it").data)
      (freshState ⟨("GEN").data, ("1").data, ("malaise").data, ("Hx").data, ("this is it").data⟩)
      ).2.diagnosisCorrect = false := by
  decide

/-- Counterexample for C5: the empty message yields an empty candidate,
which shares no characters with the empty diagnosis, yet the ratio of two
empty strings is 1.0 and `diagnosis_correct` becomes true. -/
theorem check_disjoint_can_be_correct :
    stripPhrases (lowerStr []) = [] ∧
    (checkDiagnosis emptyDiagCase [] (freshState emptyDiagCase)).2.diagnosisCorrect = true := by
  constructor
  · decide
  · decide

/-! ## SequenceMatcher: strings with no common character match nothing -/

theorem indicesOf_eq_nil (b : List Char) (c : Char) (h : c ∉ b) : indicesOf b c = [] := by
  unfold indicesOf
  rw [List.filter_eq_nil_iff]
  intro j hj
  rw [List.mem_range] at hj
  simp only [decide_eq_true_eq]
  intro he
  apply h
  rw [← he, List.getD_eq_getElem b dChar hj]
  exact List.getElem_mem hj

theorem b2jF_eq_nil (b : List Char) (c : Char) (h : c ∉ b) : b2jF b c = [] := by
  unfold b2jF
  rw [indicesOf_eq_nil b c h]
  split <;> rfl

theorem rowCands_eq_nil (a b : List Char) (blo bhi i : Nat)
    (ha : i < a.length) (hd : ∀ x ∈ a, x ∉ b) :
    rowCands a b blo bhi i = [] := by
  unfold rowCands
  rw [b2jF_eq_nil]
  · rfl
  · apply hd
    rw [List.getD_eq_getElem a dChar ha]
    exact List.getElem_mem ha

theorem flmRow_best_of_nil (a b : List Char) (blo bhi : Nat) (st : DPState) (i : Nat)
    (h : rowCands a b blo bhi i = []) :
    (flmRow a b blo bhi st i).besti = st.besti ∧
    (flmRow a b blo bhi st i).bestj = st.bestj ∧
    (flmRow a b blo bhi st i).bestsize = st.bestsize := by
  simp only [flmRow, h, bestFold, List.foldl_nil]
  refine ⟨?_, ?_, ?_⟩ <;> first | rfl | trivial

theorem foldl_flmRow_best (a b : List Char) (blo bhi : Nat) (l : List Nat) (st : DPState)
    (h : ∀ i ∈ l, rowCands a b blo bhi i = []) :
    (l.foldl (flmRow a b blo bhi) st).besti = st.besti ∧
    (l.foldl (flmRow a b blo bhi) st).bestj = st.bestj ∧
    (l.foldl (flmRow a b blo bhi) st).bestsize = st.bestsize := by
  induction l generalizing st with
  | nil => exact ⟨rfl, rfl, rfl⟩
  | cons i t ih =>
    rw [List.foldl_cons]
    obtain ⟨e1, e2, e3⟩ :=
      ih (flmRow a b blo bhi st i) (fun j hj => h j (List.mem_cons_of_mem _ hj))
    obtain ⟨f1, f2, f3⟩ :=
      flmRow_best_of_nil a b blo bhi st i (h i (List.mem_cons_self _ _))
    exact ⟨by rw [e1, f1], by rw [e2, f2], by rw [e3, f3]⟩

theorem extendFront_stuck (a b : List Char) (alo blo fuel bj k : Nat) :
    extendFront a b alo blo fuel alo bj k = (alo, bj, k) := by
  cases fuel with
  | zero => rfl
  | succ f =>
    simp only [extendFront, lt_irrefl, false_and, if_false]

theorem extendBack_step_none (a b : List Char) (ahi bhi besti bestj s : Nat)
    (hn : ¬(besti + s < ahi ∧ bestj + s < bhi ∧
        a.getD (besti + s) dChar = b.getD (bestj + s) dChar)) (fuel : Nat) :
    extendBack a b ahi bhi besti bestj fuel s = s := by
  cases fuel with
  | zero => rfl
  | succ f =>
    simp only [extendBack, if_neg hn]

/-- With no character in common there is no matching block at all. -/
theorem flm_disjoint (a b : List Char) (alo ahi blo bhi : Nat)
    (ha : ahi ≤ a.length) (hb : bhi ≤ b.length)
    (hd : ∀ x ∈ a, x ∉ b) :
    findLongestMatch a b alo ahi blo bhi = (alo, blo, 0) := by
  have hrows : ∀ i ∈ List.range' alo (ahi - alo), rowCands a b blo bhi i = [] := by
    intro i hi
    rw [List.mem_range'_1] at hi
    exact rowCands_eq_nil a b blo bhi i (by omega) hd
  obtain ⟨e1, e2, e3⟩ :=
    foldl_flmRow_best a b blo bhi (List.range' alo (ahi - alo)) ⟨alo, blo, 0, fun _ => 0⟩ hrows
  simp only [findLongestMatch, e1, e2, e3, extendFront_stuck]
  rw [extendBack_step_none]
  rintro ⟨h1, h2, h3⟩
  apply hd (a.getD (alo + 0) dChar) ?_ (h3 ▸ ?_)
  · rw [List.getD_eq_getElem a dChar (by omega)]
    exact List.getElem_mem _
  · rw [List.getD_eq_getElem b dChar (by omega)]
    exact List.getElem_mem _

/-- `M = 0` for strings with no common character. -/
theorem matchTotal_disjoint (a b : List Char) (hd : ∀ x ∈ a, x ∉ b) :
    matchTotal a b = 0 := by
  have hf := flm_disjoint a b 0 a.length 0 b.length (le_refl _) (le_refl _) hd
  unfold matchTotal
  simp only [matchSumF, hf, if_true]

/-! ## SequenceMatcher: a string always fully matches itself

For the comparison of `x` with itself the dynamic program's best block is
always diagonal (`besti = bestj`): the chain value at `(i, j)` is bounded
by both diagonal chains `diagLen x i` and `diagLen x j`, the candidates of
a row are scanned in ascending order, and a strict improvement therefore
first happens on the diagonal.  The two extension loops then grow any
diagonal block to the whole string, so `find_longest_match` returns
`(0, 0, n)` and `ratio` is `1.0` — autojunk included. -/

/-- Candidate positions of row `i` for the self comparison. -/
def selfCands (x : List Char) (i : Nat) : List Nat := rowCands x x 0 x.length i

/-- The `j2len` dictionary after the first `m` rows of the self DP. -/
def j2lenAfter (x : List Char) : Nat → Nat → Nat
  | 0, _ => 0
  | m + 1, j =>
    if (selfCands x m).contains j then
      (if j = 0 then 0 else j2lenAfter x m (j - 1)) + 1
    else 0

/-- Diagonal chain value of row `i` of the self DP. -/
def diagLen (x : List Char) (i : Nat) : Nat := j2lenAfter x (i + 1) i

theorem mem_b2jF (b : List Char) (c : Char) (j : Nat) :
    j ∈ b2jF b c ↔ isPopular b c = false ∧ j < b.length ∧ b.getD j dChar = c := by
  unfold b2jF
  cases hp : isPopular b c
  · rw [if_neg Bool.false_ne_true]
    simp [indicesOf, List.mem_filter, List.mem_range]
  · rw [if_pos rfl]
    simp

theorem mem_selfCands_iff {x : List Char} {i j : Nat} :
    j ∈ selfCands x i ↔
      isPopular x (x.getD i dChar) = false ∧ j < x.length ∧
        x.getD j dChar = x.getD i dChar := by
  unfold selfCands rowCands
  simp only [List.mem_filter, decide_eq_true_eq, mem_b2jF]
  constructor
  · rintro ⟨⟨⟨hp, hjl, he⟩, _⟩, _⟩
    exact ⟨hp, hjl, he⟩
  · rintro ⟨hp, hjl, he⟩
    exact ⟨⟨⟨hp, hjl, he⟩, Nat.zero_le j⟩, hjl⟩

/-- Any candidate of any row is a candidate of its own row. -/
theorem mem_selfCands_diag {x : List Char} {i j : Nat} (h : j ∈ selfCands x i) :
    j ∈ selfCands x j := by
  obtain ⟨hp, hjl, he⟩ := mem_selfCands_iff.mp h
  exact mem_selfCands_iff.mpr ⟨by rw [he]; exact hp, hjl, rfl⟩

theorem selfCands_pairwise (x : List Char) (i : Nat) :
    (selfCands x i).Pairwise (· < ·) := by
  unfold selfCands rowCands
  refine List.Pairwise.filter _ (List.Pairwise.filter _ ?_)
  unfold b2jF
  split
  · exact List.Pairwise.nil
  · exact List.Pairwise.filter _ (List.pairwise_lt_range _)

theorem j2lenAfter_zero (x : List Char) (j : Nat) : j2lenAfter x 0 j = 0 := rfl

theorem j2lenAfter_succ_mem {x : List Char} {m j : Nat} (h : j ∈ selfCands x m) :
    j2lenAfter x (m + 1) j = (if j = 0 then 0 else j2lenAfter x m (j - 1)) + 1 := by
  rw [j2lenAfter, if_pos (List.elem_eq_true_of_mem h)]

theorem j2lenAfter_succ_not_mem {x : List Char} {m j : Nat} (h : j ∉ selfCands x m) :
    j2lenAfter x (m + 1) j = 0 := by
  rw [j2lenAfter, if_neg (fun hc => h (List.mem_of_elem_eq_true hc))]

theorem diagLen_succ_mem {x : List Char} {k : Nat} (h : (k + 1) ∈ selfCands x (k + 1)) :
    diagLen x (k + 1) = diagLen x k + 1 := by
  rw [diagLen, j2lenAfter_succ_mem h]
  simp only [Nat.succ_ne_zero, if_false, Nat.add_sub_cancel]
  rfl

theorem diagLen_pos_of_mem {x : List Char} {i : Nat} (h : i ∈ selfCands x i) :
    1 ≤ diagLen x i := by
  rw [diagLen, j2lenAfter_succ_mem h]
  omega

theorem diagLen_not_mem {x : List Char} {i : Nat} (h : i ∉ selfCands x i) :
    diagLen x i = 0 := j2lenAfter_succ_not_mem h

/-- Every entry of the `j2len` dictionary after `m` rows is at most `m`. -/
theorem j2lenAfter_le (x : List Char) (m : Nat) : ∀ j, j2lenAfter x m j ≤ m := by
  induction m with
  | zero => intro j; exact le_refl 0
  | succ m ih =>
    intro j
    by_cases hj : j ∈ selfCands x m
    · rw [j2lenAfter_succ_mem hj]
      split
      · omega
      · have := ih (j - 1); omega
    · rw [j2lenAfter_succ_not_mem hj]
      omega

theorem diagLen_le (x : List Char) (i : Nat) : diagLen x i ≤ i + 1 :=
  j2lenAfter_le x (i + 1) i

/-- Chain values are bounded by the diagonal chain of their column. -/
theorem j2lenAfter_le_diag_col (x : List Char) :
    ∀ m, ∀ j ∈ selfCands x m, j2lenAfter x (m + 1) j ≤ diagLen x j := by
  intro m
  induction m with
  | zero =>
    intro j hj
    rw [j2lenAfter_succ_mem hj]
    have h1 : 1 ≤ diagLen x j := diagLen_pos_of_mem (mem_selfCands_diag hj)
    have e0 := j2lenAfter_zero x (j - 1)
    split <;> omega
  | succ m ih =>
    intro j hj
    rw [j2lenAfter_succ_mem hj]
    have hdj : j ∈ selfCands x j := mem_selfCands_diag hj
    rcases j with _ | k
    · rw [if_pos rfl]
      have := diagLen_pos_of_mem hdj
      omega
    · rw [diagLen_succ_mem hdj]
      simp only [Nat.succ_ne_zero, if_false, Nat.add_sub_cancel]
      by_cases hk : k ∈ selfCands x m
      · have : j2lenAfter x (m + 1) k ≤ diagLen x k := ih k hk
        omega
      · rw [j2lenAfter_succ_not_mem hk]
        have : 0 ≤ diagLen x k := Nat.zero_le _
        omega

/-- Chain values of row `m` are bounded by the diagonal chain of row `m`. -/
theorem j2lenAfter_le_diag_row (x : List Char) :
    ∀ m, m < x.length → ∀ j ∈ selfCands x m, j2lenAfter x (m + 1) j ≤ diagLen x m := by
  intro m
  induction m with
  | zero =>
    intro h0 j hj
    rw [j2lenAfter_succ_mem hj]
    obtain ⟨hp, hjl, he⟩ := mem_selfCands_iff.mp hj
    have hd0 : (0 : Nat) ∈ selfCands x 0 := mem_selfCands_iff.mpr ⟨hp, h0, rfl⟩
    have h1 : 1 ≤ diagLen x 0 := diagLen_pos_of_mem hd0
    have e0 := j2lenAfter_zero x (j - 1)
    split <;> omega
  | succ m ih =>
    intro hm1 j hj
    rw [j2lenAfter_succ_mem hj]
    obtain ⟨hp, hjl, he⟩ := mem_selfCands_iff.mp hj
    have hmm : (m + 1) ∈ selfCands x (m + 1) := mem_selfCands_iff.mpr ⟨hp, hm1, rfl⟩
    rw [diagLen_succ_mem hmm]
    rcases j with _ | k
    · rw [if_pos rfl]
      omega
    · simp only [Nat.succ_ne_zero, if_false, Nat.add_sub_cancel]
      by_cases hk : k ∈ selfCands x m
      · have := ih (by omega) k hk
        omega
      · rw [j2lenAfter_succ_not_mem hk]
        omega

theorem bestFold_cons (i : Nat) (kv : Nat → Nat) (j : Nat) (t : List Nat)
    (bst : Nat × Nat × Nat) :
    bestFold i kv (j :: t) bst =
      bestFold i kv t
        (if bst.2.2 < kv j then (i + 1 - kv j, j + 1 - kv j, kv j) else bst) := rfl

theorem bestFold_no_update (i : Nat) (kv : Nat → Nat) (l : List Nat)
    (bst : Nat × Nat × Nat) (h : ∀ j ∈ l, kv j ≤ bst.2.2) :
    bestFold i kv l bst = bst := by
  induction l with
  | nil => rfl
  | cons j t ih =>
    rw [bestFold_cons,
      if_neg (Nat.not_lt.mpr (h j (List.mem_cons_self _ _)))]
    exact ih (fun j' hj' => h j' (List.mem_cons_of_mem _ hj'))

theorem bestFold_append (i : Nat) (kv : Nat → Nat) (l1 l2 : List Nat)
    (bst : Nat × Nat × Nat) :
    bestFold i kv (l1 ++ l2) bst = bestFold i kv l2 (bestFold i kv l1 bst) := by
  unfold bestFold
  rw [List.foldl_append]

/-- One row of the best-triple scan of the self DP keeps the best block
diagonal: candidates left of the diagonal are dominated by the invariant,
the diagonal candidate updates (or not) diagonally, and candidates right of
it are dominated by the row's diagonal chain. -/
theorem bestFold_self_row (x : List Char) (m : Nat) (kv : Nat → Nat)
    (bst : Nat × Nat × Nat) (hm : m < x.length)
    (hkv : ∀ j ∈ selfCands x m, kv j = j2lenAfter x (m + 1) j)
    (hbd : bst.1 = bst.2.1) (hbs : bst.1 + bst.2.2 ≤ m)
    (hD : ∀ i', i' < m → diagLen x i' ≤ bst.2.2) :
    (bestFold m kv (selfCands x m) bst).1 = (bestFold m kv (selfCands x m) bst).2.1 ∧
    (bestFold m kv (selfCands x m) bst).1 + (bestFold m kv (selfCands x m) bst).2.2 ≤ m + 1 ∧
    (∀ i', i' < m + 1 → diagLen x i' ≤ (bestFold m kv (selfCands x m) bst).2.2) := by
  by_cases hne : selfCands x m = []
  · rw [hne, show bestFold m kv [] bst = bst from rfl]
    refine ⟨hbd, by omega, fun i' hi' => ?_⟩
    rcases Nat.lt_succ_iff_lt_or_eq.mp hi' with h | rfl
    · exact hD i' h
    · have hnm : i' ∉ selfCands x i' := by rw [hne]; exact List.not_mem_nil i'
      rw [diagLen_not_mem hnm]
      exact Nat.zero_le _
  · obtain ⟨j0, hj0⟩ := List.exists_mem_of_ne_nil _ hne
    have hpop : isPopular x (x.getD m dChar) = false := (mem_selfCands_iff.mp hj0).1
    have hmem : m ∈ selfCands x m := mem_selfCands_iff.mpr ⟨hpop, hm, rfl⟩
    obtain ⟨l1, l2, hsplit⟩ := List.mem_iff_append.mp hmem
    have hpw : (l1 ++ m :: l2).Pairwise (· < ·) := hsplit ▸ selfCands_pairwise x m
    have hl1lt : ∀ j ∈ l1, j < m := fun j hj =>
      (List.pairwise_append.mp hpw).2.2 j hj m (List.mem_cons_self _ _)
    have hl1mem : ∀ j ∈ l1, j ∈ selfCands x m := fun j hj => by
      rw [hsplit]; exact List.mem_append_left _ hj
    have hl2mem : ∀ j ∈ l2, j ∈ selfCands x m := fun j hj => by
      rw [hsplit]; exact List.mem_append_right _ (List.mem_cons_of_mem _ hj)
    have hKd : kv m = diagLen x m := by rw [hkv m hmem]; rfl
    have hKle : kv m ≤ m + 1 := by rw [hKd]; exact diagLen_le x m
    have hfold1 : bestFold m kv l1 bst = bst := by
      apply bestFold_no_update
      intro j hj
      rw [hkv j (hl1mem j hj)]
      exact le_trans (j2lenAfter_le_diag_col x m j (hl1mem j hj))
        (hD j (hl1lt j hj))
    have hl2bound : ∀ s : Nat × Nat × Nat, kv m ≤ s.2.2 →
        (∀ j ∈ l2, kv j ≤ s.2.2) := by
      intro s hs j hj
      rw [hkv j (hl2mem j hj)]
      exact le_trans (j2lenAfter_le_diag_row x m hm j (hl2mem j hj)) (hKd ▸ hs)
    rw [hsplit, bestFold_append, hfold1, bestFold_cons]
    by_cases hcmp : bst.2.2 < kv m
    · rw [if_pos hcmp,
        bestFold_no_update _ _ _ _ (hl2bound _ (le_refl _))]
      refine ⟨rfl, ?_, fun i' hi' => ?_⟩
      · show m + 1 - kv m + kv m ≤ m + 1
        omega
      · show diagLen x i' ≤ kv m
        rcases Nat.lt_succ_iff_lt_or_eq.mp hi' with h | rfl
        · exact le_trans (hD i' h) (Nat.le_of_lt hcmp)
        · rw [← hKd]
    · rw [if_neg hcmp,
        bestFold_no_update _ _ _ _ (hl2bound _ (Nat.not_lt.mp hcmp))]
      refine ⟨hbd, by omega, fun i' hi' => ?_⟩
      rcases Nat.lt_succ_iff_lt_or_eq.mp hi' with h | rfl
      · exact hD i' h
      · rw [← hKd] at *
        exact Nat.not_lt.mp hcmp

/-- The invariant carried through the rows of the self DP. -/
def SelfInv (x : List Char) (m : Nat) (st : DPState) : Prop :=
  (∀ j, st.j2len j = j2lenAfter x m j) ∧
  st.besti = st.bestj ∧
  st.besti + st.bestsize ≤ m ∧
  (∀ i', i' < m → diagLen x i' ≤ st.bestsize)

theorem selfInv_step (x : List Char) (m : Nat) (st : DPState)
    (hm : m < x.length) (h : SelfInv x m st) :
    SelfInv x (m + 1) (flmRow x x 0 x.length st m) := by
  obtain ⟨hj2, hbd, hbs, hD⟩ := h
  have hkv : ∀ j ∈ selfCands x m,
      (if j = 0 then 0 else st.j2len (j - 1)) + 1 = j2lenAfter x (m + 1) j := by
    intro j hj
    rw [j2lenAfter_succ_mem hj]
    congr 1
    split
    · rfl
    · rw [hj2]
  obtain ⟨r1, r2, r3⟩ := bestFold_self_row x m
    (fun j => (if j = 0 then 0 else st.j2len (j - 1)) + 1)
    (st.besti, st.bestj, st.bestsize) hm hkv hbd hbs hD
  refine ⟨?_, r1, r2, r3⟩
  intro j
  show (if List.elem j (selfCands x m) = true then
      (if j = 0 then 0 else st.j2len (j - 1)) + 1 else 0) = j2lenAfter x (m + 1) j
  by_cases hj : j ∈ selfCands x m
  · rw [if_pos (List.elem_eq_true_of_mem hj)]
    exact hkv j hj
  · rw [if_neg (fun hc => hj (List.mem_of_elem_eq_true hc)),
      j2lenAfter_succ_not_mem hj]

theorem selfInv_fold (x : List Char) (m : Nat) (hm : m ≤ x.length) :
    SelfInv x m
      ((List.range' 0 m).foldl (flmRow x x 0 x.length) ⟨0, 0, 0, fun _ => 0⟩) := by
  induction m with
  | zero =>
    exact ⟨fun j => rfl, rfl, le_refl 0, fun i' hi' => absurd hi' (Nat.not_lt_zero i')⟩
  | succ m ih =>
    rw [List.range'_1_concat, List.foldl_append, List.foldl_cons, List.foldl_nil,
      Nat.zero_add]
    exact selfInv_step x m _ (by omega) (ih (by omega))

theorem extendFront_self_diag (x : List Char) :
    ∀ p s, extendFront x x 0 0 p p p s = (0, 0, p + s) := by
  intro p
  induction p with
  | zero =>
    intro s
    rw [Nat.zero_add]
    rfl
  | succ p ih =>
    intro s
    show (if 0 < p + 1 ∧ 0 < p + 1 ∧ x.getD (p + 1 - 1) dChar = x.getD (p + 1 - 1) dChar
      then extendFront x x 0 0 p (p + 1 - 1) (p + 1 - 1) (s + 1)
      else (p + 1, p + 1, s)) = (0, 0, p + 1 + s)
    rw [if_pos ⟨Nat.succ_pos p, Nat.succ_pos p, rfl⟩]
    simp only [Nat.add_sub_cancel]
    rw [ih (s + 1), show p + (s + 1) = p + 1 + s by omega]

theorem extendBack_self_diag (x : List Char) (n : Nat) (hn : n = x.length) :
    ∀ fuel s, s ≤ n → n - s ≤ fuel → extendBack x x n n 0 0 fuel s = n := by
  intro fuel
  induction fuel with
  | zero =>
    intro s h1 h2
    have : s = n := by omega
    rw [this]
    rfl
  | succ f ih =>
    intro s h1 h2
    rcases Nat.lt_or_ge s n with hlt | hge
    · show (if 0 + s < n ∧ 0 + s < n ∧ x.getD (0 + s) dChar = x.getD (0 + s) dChar
        then extendBack x x n n 0 0 f (s + 1) else s) = n
      rw [if_pos ⟨by omega, by omega, rfl⟩]
      exact ih (s + 1) (by omega) (by omega)
    · have : s = n := by omega
      rw [this]
      show (if 0 + n < n ∧ _ ∧ _ then _ else n) = n
      rw [if_neg (by omega)]

/-- `find_longest_match` over the whole of `x` against itself returns the
full diagonal block. -/
theorem flm_self (x : List Char) :
    findLongestMatch x x 0 x.length 0 x.length = (0, 0, x.length) := by
  obtain ⟨hj2, hbd, hbs, hD⟩ := selfInv_fold x x.length (le_refl _)
  simp only [findLongestMatch, Nat.sub_zero]
  rw [← hbd, hbd, ← hbd]
  rw [extendFront_self_diag]
  show (_, _, extendBack x x x.length x.length 0 0 x.length _) = _
  rw [extendBack_self_diag x x.length rfl x.length _ hbs (by omega)]

/-- `find_longest_match` on empty intervals finds nothing. -/
theorem flm_degenerate (a b : List Char) (v w : Nat) :
    findLongestMatch a b v v w w = (v, w, 0) := by
  simp only [findLongestMatch, Nat.sub_self, List.range'_zero, List.foldl_nil]
  rw [extendFront_stuck]
  rw [extendBack_step_none a b v w v w 0 (by omega)]

theorem matchSumF_degenerate (a b : List Char) (v w : Nat) :
    ∀ fuel, matchSumF a b fuel v v w w = 0 := by
  intro fuel
  cases fuel with
  | zero => rfl
  | succ f =>
    simp only [matchSumF, flm_degenerate, if_true]

/-- `M = n` when a string is compared with itself. -/
theorem matchTotal_self (x : List Char) : matchTotal x x = x.length := by
  rcases Nat.eq_zero_or_pos x.length with h0 | hpos
  · have hx : x = [] := List.length_eq_zero.mp h0
    subst hx
    rfl
  · unfold matchTotal
    rw [show matchSumF x x (x.length + x.length + 1) 0 x.length 0 x.length =
      (if (findLongestMatch x x 0 x.length 0 x.length).2.2 = 0 then 0
       else
         matchSumF x x (x.length + x.length) 0
             (findLongestMatch x x 0 x.length 0 x.length).1 0
             (findLongestMatch x x 0 x.length 0 x.length).2.1 +
           (findLongestMatch x x 0 x.length 0 x.length).2.2 +
           matchSumF x x (x.length + x.length)
             ((findLongestMatch x x 0 x.length 0 x.length).1 +
               (findLongestMatch x x 0 x.length 0 x.length).2.2) x.length
             ((findLongestMatch x x 0 x.length 0 x.length).2.1 +
               (findLongestMatch x x 0 x.length 0 x.length).2.2) x.length) from rfl]
    rw [flm_self]
    show (if x.length = 0 then 0
      else matchSumF x x (x.length + x.length) 0 0 0 0 + x.length +
        matchSumF x x (x.length + x.length) (0 + x.length) x.length
          (0 + x.length) x.length) = x.length
    rw [if_neg (by omega), Nat.zero_add, matchSumF_degenerate, matchSumF_degenerate]
    omega

/-! ## Phrase stripping on a clean self-guess message -/

theorem startsWithL_append_self (p rest : List Char) :
    startsWithL p (p ++ rest) = true := by
  induction p with
  | nil => rfl
  | cons c t ih => simp [startsWithL, ih]

theorem replaceDelF_of_not_contains (p : List Char) :
    ∀ fuel s, containsL p s = false → replaceDelF p fuel s = s := by
  intro fuel
  induction fuel with
  | zero => intro s _; rfl
  | succ f ih =>
    intro s h
    cases s with
    | nil => rfl
    | cons c t =>
      have hcc : (startsWithL p (c :: t) || containsL p t) = false := h
      have h1 : startsWithL p (c :: t) = false := by
        cases hs : startsWithL p (c :: t)
        · rfl
        · rw [hs] at hcc; simp at hcc
      have h2 : containsL p t = false := by
        rw [h1] at hcc; simpa using hcc
      show (if startsWithL p (c :: t) ∧ p ≠ [] then
          replaceDelF p f ((c :: t).drop p.length) else c :: replaceDelF p f t) = c :: t
      rw [if_neg (by rw [h1]; rintro ⟨h', _⟩; exact Bool.false_ne_true h')]
      rw [ih t h2]

theorem replaceDelF_at_head (p rest : List Char) (f : Nat) (hp : p ≠ [])
    (h : containsL p rest = false) : replaceDelF p (f + 1) (p ++ rest) = rest := by
  cases p with
  | nil => exact absurd rfl hp
  | cons c pt =>
    show (if startsWithL (c :: pt) ((c :: pt) ++ rest) ∧ (c :: pt) ≠ [] then
        replaceDelF (c :: pt) f (((c :: pt) ++ rest).drop (c :: pt).length)
      else c :: replaceDelF (c :: pt) f (pt ++ rest)) = rest
    rw [if_pos ⟨by rw [startsWithL_append_self], List.cons_ne_nil c pt⟩]
    rw [List.drop_left]
    exact replaceDelF_of_not_contains _ f rest h

theorem replaceDel_of_not_contains (p s : List Char) (h : containsL p s = false) :
    replaceDel p s = s := replaceDelF_of_not_contains p s.length s h

theorem replaceDel_at_head (p rest : List Char) (hp : p ≠ [])
    (h : containsL p rest = false) : replaceDel p (p ++ rest) = rest := by
  unfold replaceDel
  obtain ⟨c, pt, rfl⟩ : ∃ c pt, p = c :: pt := by
    cases p with
    | nil => exact absurd rfl hp
    | cons c pt => exact ⟨c, pt, rfl⟩
  rw [show ((c :: pt) ++ rest).length = (pt.length + rest.length) + 1 by
    simp only [List.cons_append, List.length_cons, List.length_append]]
  exact replaceDelF_at_head _ rest _ hp h

/-- On a message "my diagnosis is D" whose diagnosis part contains no
announcing phrase and carries no surrounding whitespace, the stripping
loop of `check_diagnosis` isolates exactly `D`. -/
theorem stripPhrases_self_guess (L : List Char)
    (h1 : stripWs L = L)
    (h2 : ∀ p ∈ stripPhraseList, containsL p L = false) :
    stripPhrases (("my diagnosis is ").data ++ L) = L := by
  have hc1 : containsL (("my diagnosis is").data) (' ' :: L) = false := by
    show (startsWithL (("my diagnosis is").data) (' ' :: L) ||
      containsL (("my diagnosis is").data) L) = false
    rw [show startsWithL (("my diagnosis is").data) (' ' :: L) = false from rfl]
    rw [h2 (("my diagnosis is").data) (by decide)]
    rfl
  have e1 : stripWs (replaceDel (("my diagnosis is").data)
      (("my diagnosis is ").data ++ L)) = L := by
    rw [show ("my diagnosis is ").data ++ L = ("my diagnosis is").data ++ (' ' :: L)
      from rfl]
    rw [replaceDel_at_head _ _ (by decide) hc1]
    rw [show stripWs (' ' :: L) = stripWs L from rfl, h1]
  have estep : ∀ p ∈ stripPhraseList, stripWs (replaceDel p L) = L := by
    intro p hp
    rw [replaceDel_of_not_contains p L (h2 p hp), h1]
  show List.foldl (fun t p => stripWs (replaceDel p t))
    (("my diagnosis is ").data ++ L) stripPhraseList = L
  rw [show stripPhraseList =
    ("my diagnosis is").data :: [("i think this is").data, ("this could be").data,
      ("you have").data, ("this is").data] from rfl]
  rw [List.foldl_cons, e1]
  rw [List.foldl_cons, estep (("i think this is").data) (by decide)]
  rw [List.foldl_cons, estep (("this could be").data) (by decide)]
  rw [List.foldl_cons, estep (("you have").data) (by decide)]
  rw [List.foldl_cons, estep (("this is").data) (by decide)]
  rfl

/-- C4 (amended): for every active case whose diagnosis `D`, after
lower-casing, has no leading or trailing whitespace and contains none of
the five stripped phrases as a substring, `check_diagnosis("My diagnosis
is " + D)` sets `diagnosis_correct` to true: the candidate equals the
lower-cased `D` and the self-similarity is 1.0 > 0.8. -/
theorem check_self_guess_correct (c : CaseRecord) (st : SessionState)
    (h1 : stripWs (lowerStr c.diagnosis) = lowerStr c.diagnosis)
    (h2 : ∀ p ∈ stripPhraseList, containsL p (lowerStr c.diagnosis) = false) :
    (checkDiagnosis c (("My diagnosis is ").data ++ c.diagnosis)
      st).2.diagnosisCorrect = true := by
  rw [checkDiagnosis_correct_eq]
  have hlow : lowerStr (("My diagnosis is ").data ++ c.diagnosis) =
      ("my diagnosis is ").data ++ lowerStr c.diagnosis := by
    unfold lowerStr
    rw [List.map_append]
    congr 1
  rw [hlow, stripPhrases_self_guess _ h1 h2]
  unfold similarGt
  rw [matchTotal_self]
  unfold ratioGt
  rcases Nat.eq_zero_or_pos (lowerStr c.diagnosis).length with h | h
  · rw [if_pos (by omega)]
  · rw [if_neg (by omega)]
    simp only [decide_eq_true_eq]
    omega

/-- Witness for C4 (amended) on the diagnosis "strep throat". -/
theorem check_self_guess_correct_witness :
    (checkDiagnosis demoCase (("My diagnosis is ").data ++ demoCase.diagnosis)
      (freshState demoCase)).2.diagnosisCorrect = true :=
  check_self_guess_correct demoCase (freshState demoCase) (by decide) (by decide)

/-- C3 (amended): with an empty ground-truth diagnosis, every
`check_diagnosis` call whose message leaves a non-empty candidate after
lower-casing, phrase-removal and trimming sets `diagnosis_correct` to
false (when the candidate is empty too, difflib rates two empty strings
1.0 and the flag becomes true — see the counterexample). -/
theorem check_empty_diag_incorrect (c : CaseRecord) (msg : List Char) (st : SessionState)
    (h0 : c.diagnosis = []) (hne : stripPhrases (lowerStr msg) ≠ []) :
    (checkDiagnosis c msg st).2.diagnosisCorrect = false := by
  rw [checkDiagnosis_correct_eq, h0]
  rw [show lowerStr ([] : List Char) = [] from rfl]
  unfold similarGt
  rw [matchTotal_disjoint _ _ (fun x _ hx => (List.not_mem_nil x) hx)]
  unfold ratioGt
  rw [if_neg ?_]
  · simp
  · simp only [List.length_nil, Nat.add_zero]
    exact Nat.pos_iff_ne_zero.mp (List.length_pos.mpr hne)

/-- Witness for C3 (amended): message "flu", empty diagnosis. -/
theorem check_empty_diag_incorrect_witness :
    (checkDiagnosis emptyDiagCase (("flu").data)
      (freshState emptyDiagCase)).2.diagnosisCorrect = false :=
  check_empty_diag_incorrect emptyDiagCase (("flu").data) (freshState emptyDiagCase)
    rfl (by decide)

/-- C5 (amended): whenever the extracted candidate shares no character
with the (lower-cased) ground-truth diagnosis and the two are not both
empty, `diagnosis_correct` is set to false (when both are empty the ratio
is defined as 1.0 and the flag becomes true — see the counterexample). -/
theorem check_disjoint_incorrect (c : CaseRecord) (msg : List Char) (st : SessionState)
    (hd : ∀ ch ∈ stripPhrases (lowerStr msg), ch ∉ lowerStr c.diagnosis)
    (hne : stripPhrases (lowerStr msg) ≠ [] ∨ lowerStr c.diagnosis ≠ []) :
    (checkDiagnosis c msg st).2.diagnosisCorrect = false := by
  rw [checkDiagnosis_correct_eq]
  show ratioGt (matchTotal _ _) _ = false
  rw [matchTotal_disjoint _ _ hd]
  unfold ratioGt
  rw [if_neg ?_]
  · simp
  · rcases hne with h | h
    · have := List.length_pos.mpr h; omega
    · have := List.length_pos.mpr h; omega

/-- Witness for C5 (amended): candidate "anemia" against diagnosis "flu"
shares no character. -/
theorem check_disjoint_incorrect_witness :
    (checkDiagnosis
      ⟨("GEN").data, ("1").data, ("fatigue").data, ("Hx").data, ("flu").data⟩
      (("i think this is anemia").data)
      (freshState ⟨("GEN").data, ("1").data, ("fatigue").data, ("Hx").data, ("flu").data⟩)
      ).2.diagnosisCorrect = false :=
  check_disjoint_incorrect _ _ _ (by decide) (by decide)

end VPModel
